import Mathlib

/-!
# QuantumPredictor — a shallow embedding of `src/contracts/QuantumPredictor.sol`

The contract keeps an array of `Prediction` records (name, option labels,
one encrypted `euint32` counter per option, an `isOpen` flag, a creation
timestamp), a `_hasVoted` double mapping, and three events.  The
homomorphic collaborator (`FHE.*` from `@fhevm/solidity`) is modelled
semantically: a ciphertext handle is represented by the 32-bit value it
decrypts to together with its two access-control facts (whether it has
been flagged publicly decryptable and whether the contract currently
holds operate-rights on it via `allowThis`).  Machine integers are `Nat`
with explicit reduction modulo `2 ^ 32` where `euint32` arithmetic wraps.

Failure (`require(...)`) is modelled with `Except QPError`: an error
result is a reverted transaction, so no state is produced — matching the
atomic revert semantics of the chain.  The spec's error taxonomy maps to
the `require` messages of the source as follows:
`InvalidInput` ↔ "Name required" / "Options must be 2-4" / "Empty option";
`InvalidPrediction` ↔ "Invalid prediction"; `BallotClosed` ↔ "Prediction
closed"; `AlreadyVoted` ↔ "Already voted"; `AlreadyClosed` ↔ "Already
closed"; `InvalidProof` ↔ a failing `FHE.fromExternal` proof check.
-/

namespace QuantumPredictor

/-- A ciphertext handle, modelled by the 32-bit value it decrypts to plus
its access-control state: `publicDec` is the publicly-decryptable flag set
by `FHE.makePubliclyDecryptable`, `allowedThis` records whether the
contract holds operate-rights granted by `FHE.allowThis`. -/
structure Ct where
  val : Nat
  publicDec : Bool
  allowedThis : Bool
deriving DecidableEq, Repr

/-- An external encrypted input (`externalEuint32` plus its `inputProof`):
the value it decodes to and whether the proof verifies. -/
structure ExtInput where
  val : Nat
  proofOk : Bool
deriving DecidableEq, Repr

namespace FHE

/-- `FHE.asEuint32(v)`: trivial encryption of a plaintext; the fresh
handle carries no grants. -/
def asEuint32 (v : Nat) : Ct := ⟨v % 2 ^ 32, false, false⟩

/-- `FHE.allowThis(c)`: grant the contract operate-rights on handle `c`. -/
def allowThis (c : Ct) : Ct := { c with allowedThis := true }

/-- `FHE.eq(a, uint32(i))`: encrypted comparison against a plaintext
scalar, modelled by the decrypted boolean. -/
def eqScalar (a : Ct) (i : Nat) : Bool := a.val == i % 2 ^ 32

/-- `FHE.select(b, x, y)`: encrypted mux; the derived handle inherits no
grants. -/
def select (b : Bool) (x y : Ct) : Ct := ⟨if b then x.val else y.val, false, false⟩

/-- `FHE.add(a, b)`: wrapping 32-bit homomorphic addition; the derived
handle inherits no grants. -/
def add (a b : Ct) : Ct := ⟨(a.val + b.val) % 2 ^ 32, false, false⟩

/-- `FHE.fromExternal(input, proof)`: decode an external encrypted input,
`none` when the proof fails (surfaced as `InvalidProof`). -/
def fromExternal (e : ExtInput) : Option Ct :=
  if e.proofOk then some ⟨e.val % 2 ^ 32, false, false⟩ else none

/-- `FHE.makePubliclyDecryptable(c)`: one-way flag letting anyone decrypt
the handle. -/
def makePubliclyDecryptable (c : Ct) : Ct := { c with publicDec := true }

end FHE

/-- The `Prediction` struct of the contract. -/
structure Prediction where
  name : String
  options : List String
  encryptedCounts : List Ct
  isOpen : Bool
  createdAt : Nat
deriving DecidableEq, Repr

/-- The three events emitted by the contract.  `VoteSubmitted` carries
`euint32.unwrap(choice)`, an opaque reference to the submitted ciphertext
handle, modelled by the decoded handle itself. -/
inductive QPEvent where
  | PredictionCreated (predictionId : Nat) (creator : Nat) (name : String) (options : List String)
  | VoteSubmitted (predictionId : Nat) (voter : Nat) (choiceHandle : Ct)
  | PredictionClosed (predictionId : Nat)
deriving DecidableEq, Repr

/-- Contract storage: the `_predictions` array, the `_hasVoted` mapping
(as the set of `(predictionId, address)` pairs mapped to `true`; addresses
are `Nat`), and the append-only event log. -/
structure QPState where
  predictions : List Prediction
  voted : List (Nat × Nat)
  events : List QPEvent
deriving DecidableEq, Repr

/-- Freshly deployed contract: no predictions, empty ledger, no events. -/
def initState : QPState := ⟨[], [], []⟩

instance {ε α : Type} [DecidableEq ε] [DecidableEq α] : DecidableEq (Except ε α) :=
  fun x y =>
    match x, y with
    | .ok a, .ok b =>
        if h : a = b then isTrue (by rw [h])
        else isFalse (by intro he; cases he; exact h rfl)
    | .ok _, .error _ => isFalse (by intro he; cases he)
    | .error _, .ok _ => isFalse (by intro he; cases he)
    | .error e, .error f =>
        if h : e = f then isTrue (by rw [h])
        else isFalse (by intro he; cases he; exact h rfl)

/-- The spec's error taxonomy for the contract's `require` failures. -/
inductive QPError where
  | InvalidInput
  | InvalidPrediction
  | BallotClosed
  | AlreadyVoted
  | AlreadyClosed
  | InvalidProof
deriving DecidableEq, Repr

/-- Shapes of the homomorphic operations `submitChoice` performs, in
order, used to state the constant-shape (oblivious tally) property.  A
shape records which primitive ran and any plaintext argument, never the
ciphertext contents. -/
inductive FHEOpShape where
  | decodeExternal
  | trivialEncrypt (v : Nat)
  | eqScalar (slot : Nat)
  | select
  | addCount (slot : Nat)
  | allowCount (slot : Nat)
deriving DecidableEq, Repr

/-- The tally loop of `submitChoice` (source lines 72–77): for each slot
`i`, `matches = FHE.eq(choice, uint32(i))`, `increment =
FHE.select(matches, one, zero)`, `counts[i] = FHE.add(counts[i],
increment)`, `FHE.allowThis(counts[i])`.  `i` is the index of the first
remaining slot. -/
def tallyFrom (choice : Ct) : Nat → List Ct → List Ct
  | _, [] => []
  | i, c :: rest =>
      FHE.allowThis (FHE.add c
          (FHE.select (FHE.eqScalar choice i) (FHE.asEuint32 1) (FHE.asEuint32 0)))
        :: tallyFrom choice (i + 1) rest

/-- The homomorphic-operation shapes the tally loop emits from slot `i`
on, for `n` remaining slots: one `eq`, one `select`, one `add`, one
re-grant per slot, every slot exactly once. -/
def tallyTraceFrom : Nat → Nat → List FHEOpShape
  | _, 0 => []
  | i, n + 1 =>
      .eqScalar i :: .select :: .addCount i :: .allowCount i :: tallyTraceFrom (i + 1) n

/-- `createPrediction(name, options)` (source lines 30–55): validates
name non-empty, option count in [2,4], every option non-empty; allocates
the next id, stores name/options, sets `isOpen`, records the timestamp,
initializes each counter to `FHE.asEuint32(0)` then `FHE.allowThis` on
it, and emits `PredictionCreated`. -/
def createPrediction (s : QPState) (sender : Nat) (timestamp : Nat)
    (name : String) (options : List String) : Except QPError (Nat × QPState) :=
  if name = "" then .error .InvalidInput
  else if ¬ (2 ≤ options.length ∧ options.length ≤ 4) then .error .InvalidInput
  else if options.any (fun o => o = "") then .error .InvalidInput
  else
    let predictionId := s.predictions.length
    let prediction : Prediction :=
      { name := name
        options := options
        encryptedCounts := options.map (fun _ => FHE.allowThis (FHE.asEuint32 0))
        isOpen := true
        createdAt := timestamp }
    .ok (predictionId,
      { predictions := s.predictions ++ [prediction]
        voted := s.voted
        events := s.events ++ [.PredictionCreated predictionId sender name options] })

/-- `submitChoice(predictionId, encryptedChoice, inputProof)` (source
lines 61–82): requires a known id, an open ballot, a caller who has not
voted; decodes the external input (proof failure is `InvalidProof`); runs
the oblivious tally loop over every counter; marks the caller voted and
emits `VoteSubmitted` with the choice handle.  Also returns the trace of
homomorphic-operation shapes performed. -/
def submitChoice (s : QPState) (sender : Nat) (predictionId : Nat)
    (enc : ExtInput) : Except QPError (QPState × List FHEOpShape) :=
  if h : predictionId < s.predictions.length then
    let prediction := s.predictions[predictionId]
    if prediction.isOpen then
      if (predictionId, sender) ∈ s.voted then .error .AlreadyVoted
      else
        match FHE.fromExternal enc with
        | none => .error .InvalidProof
        | some choice =>
            let newCounts := tallyFrom choice 0 prediction.encryptedCounts
            .ok
              ({ predictions :=
                   s.predictions.set predictionId { prediction with encryptedCounts := newCounts }
                 voted := (predictionId, sender) :: s.voted
                 events := s.events ++ [.VoteSubmitted predictionId sender choice] },
               .decodeExternal :: .trivialEncrypt 1 :: .trivialEncrypt 0 ::
                 tallyTraceFrom 0 prediction.encryptedCounts.length)
    else .error .BallotClosed
  else .error .InvalidPrediction

/-- `closePrediction(predictionId)` (source lines 86–98): requires a
known id and an open ballot; sets `isOpen = false`, replaces every
counter with `FHE.makePubliclyDecryptable` of it, and emits
`PredictionClosed`. -/
def closePrediction (s : QPState) (predictionId : Nat) : Except QPError QPState :=
  if h : predictionId < s.predictions.length then
    let prediction := s.predictions[predictionId]
    if prediction.isOpen then
      .ok
        { predictions :=
            s.predictions.set predictionId
              { prediction with
                  isOpen := false
                  encryptedCounts := prediction.encryptedCounts.map FHE.makePubliclyDecryptable }
          voted := s.voted
          events := s.events ++ [.PredictionClosed predictionId] }
    else .error .AlreadyClosed
  else .error .InvalidPrediction

/-- `getPrediction(predictionId)` (source lines 107–134): a `view` that
requires a known id and copies out name, options, counters, `isOpen`,
`createdAt`.  Being `view`, it returns the storage state unchanged. -/
def getPrediction (s : QPState) (predictionId : Nat) :
    Except QPError ((String × List String × List Ct × Bool × Nat) × QPState) :=
  if h : predictionId < s.predictions.length then
    let p := s.predictions[predictionId]
    .ok ((p.name, p.options, p.encryptedCounts, p.isOpen, p.createdAt), s)
  else .error .InvalidPrediction

/-- `getEncryptedCounts(predictionId)` (source lines 139–146): `view`
returning the counters of a known id. -/
def getEncryptedCounts (s : QPState) (predictionId : Nat) :
    Except QPError (List Ct × QPState) :=
  if h : predictionId < s.predictions.length then
    .ok ((s.predictions[predictionId]).encryptedCounts, s)
  else .error .InvalidPrediction

/-- `hasAddressVoted(predictionId, user)` (source lines 148–151): `view`
returning the `_hasVoted` entry of a known id. -/
def hasAddressVoted (s : QPState) (predictionId : Nat) (user : Nat) :
    Except QPError (Bool × QPState) :=
  if predictionId < s.predictions.length then
    .ok (decide ((predictionId, user) ∈ s.voted), s)
  else .error .InvalidPrediction

/-- `getPredictionCount()` (source lines 155–157): `view` returning the
number of predictions; takes no id and never reverts. -/
def getPredictionCount (s : QPState) : Nat × QPState :=
  (s.predictions.length, s)

/-- One successful mutating transaction of the contract. -/
inductive Step : QPState → QPState → Prop where
  | create {s s' : QPState} (sender timestamp : Nat) (name : String) (options : List String)
      (predictionId : Nat) :
      createPrediction s sender timestamp name options = .ok (predictionId, s') → Step s s'
  | submit {s s' : QPState} (sender predictionId : Nat) (enc : ExtInput)
      (trace : List FHEOpShape) :
      submitChoice s sender predictionId enc = .ok (s', trace) → Step s s'
  | close {s s' : QPState} (predictionId : Nat) :
      closePrediction s predictionId = .ok s' → Step s s'

/-- States reachable from a fresh deployment by successful transactions
(reverted transactions leave the state untouched). -/
inductive Reachable : QPState → Prop where
  | init : Reachable initState
  | step {s s' : QPState} : Reachable s → Step s s' → Reachable s'

/-- The data-model invariant of a stored prediction: options and counters
positionally aligned, 2–4 options, every label non-empty. -/
def wellFormedPrediction (p : Prediction) : Prop :=
  p.options.length = p.encryptedCounts.length ∧
    2 ≤ p.options.length ∧ p.options.length ≤ 4 ∧ ∀ o ∈ p.options, o ≠ ""

instance (p : Prediction) : Decidable (wellFormedPrediction p) := by
  unfold wellFormedPrediction; infer_instance

/-- The slot written by an `addCount` shape, `none` for other shapes. -/
def addedSlot : FHEOpShape → Option Nat
  | .addCount i => some i
  | _ => none

/-- Recognizer for `eqScalar` shapes. -/
def isEqShape : FHEOpShape → Bool
  | .eqScalar _ => true
  | _ => false

/-- Recognizer for `select` shapes. -/
def isSelectShape : FHEOpShape → Bool
  | .select => true
  | _ => false

/-- Recognizer for `addCount` shapes. -/
def isAddShape : FHEOpShape → Bool
  | .addCount _ => true
  | _ => false

/-- Recognizer for `allowCount` (re-grant) shapes. -/
def isAllowShape : FHEOpShape → Bool
  | .allowCount _ => true
  | _ => false

theorem length_tallyFrom (choice : Ct) (i : Nat) (cs : List Ct) :
    (tallyFrom choice i cs).length = cs.length := by
  induction cs generalizing i with
  | nil => rfl
  | cons c rest ih => simp [tallyFrom, ih]

theorem getElem?_tallyFrom (choice : Ct) (i j : Nat) (cs : List Ct) :
    (tallyFrom choice i cs)[j]? =
      cs[j]?.map (fun c =>
        FHE.allowThis (FHE.add c
          (FHE.select (FHE.eqScalar choice (i + j)) (FHE.asEuint32 1) (FHE.asEuint32 0)))) := by
  induction cs generalizing i j with
  | nil => simp [tallyFrom]
  | cons c rest ih =>
    cases j with
    | zero => simp [tallyFrom]
    | succ j =>
      have h2 : i + (j + 1) = (i + 1) + j := by omega
      rw [h2]
      simpa [tallyFrom] using ih (i + 1) j

theorem val_tallyFrom (choice : Ct) (j : Nat) (cs : List Ct) :
    ((tallyFrom choice 0 cs)[j]?.map Ct.val) =
      cs[j]?.map (fun c =>
        (c.val + if choice.val = j % 2 ^ 32 then 1 else 0) % 2 ^ 32) := by
  rw [getElem?_tallyFrom]
  cases hj : cs[j]? with
  | none => rfl
  | some c =>
    simp only [Option.map_some', Option.some.injEq]
    by_cases h : choice.val = j % 2 ^ 32
    · simp [FHE.allowThis, FHE.add, FHE.select, FHE.eqScalar, FHE.asEuint32, h]
    · simp [FHE.allowThis, FHE.add, FHE.select, FHE.eqScalar, FHE.asEuint32, h]

theorem length_tallyTraceFrom (i n : Nat) : (tallyTraceFrom i n).length = 4 * n := by
  induction n generalizing i with
  | zero => rfl
  | succ n ih =>
    simp only [tallyTraceFrom, List.length_cons, ih]
    omega

theorem addedSlots_tallyTraceFrom (i n : Nat) :
    (tallyTraceFrom i n).filterMap addedSlot = List.range' i n := by
  induction n generalizing i with
  | zero => rfl
  | succ n ih =>
    simp [tallyTraceFrom, List.filterMap_cons, addedSlot, ih, List.range'_succ]

theorem countP_eq_tallyTraceFrom (i n : Nat) :
    (tallyTraceFrom i n).countP isEqShape = n := by
  induction n generalizing i with
  | zero => rfl
  | succ n ih => simp [tallyTraceFrom, List.countP_cons, isEqShape, ih]

theorem countP_select_tallyTraceFrom (i n : Nat) :
    (tallyTraceFrom i n).countP isSelectShape = n := by
  induction n generalizing i with
  | zero => rfl
  | succ n ih => simp [tallyTraceFrom, List.countP_cons, isSelectShape, ih]

theorem countP_add_tallyTraceFrom (i n : Nat) :
    (tallyTraceFrom i n).countP isAddShape = n := by
  induction n generalizing i with
  | zero => rfl
  | succ n ih => simp [tallyTraceFrom, List.countP_cons, isAddShape, ih]

theorem countP_allow_tallyTraceFrom (i n : Nat) :
    (tallyTraceFrom i n).countP isAllowShape = n := by
  induction n generalizing i with
  | zero => rfl
  | succ n ih => simp [tallyTraceFrom, List.countP_cons, isAllowShape, ih]

/-- The prediction record appended by a successful `createPrediction`. -/
def newPrediction (name : String) (options : List String) (timestamp : Nat) : Prediction :=
  { name := name
    options := options
    encryptedCounts := options.map (fun _ => FHE.allowThis (FHE.asEuint32 0))
    isOpen := true
    createdAt := timestamp }

theorem createPrediction_ok (s : QPState) (sender timestamp : Nat)
    (name : String) (options : List String)
    (hn : name ≠ "") (h2 : 2 ≤ options.length) (h4 : options.length ≤ 4)
    (hne : ∀ o ∈ options, o ≠ "") :
    createPrediction s sender timestamp name options =
      .ok (s.predictions.length,
        { predictions := s.predictions ++ [newPrediction name options timestamp]
          voted := s.voted
          events := s.events ++
            [.PredictionCreated s.predictions.length sender name options] }) := by
  have hany : options.any (fun o => o = "") = false := by
    simp only [List.any_eq_false, decide_eq_true_eq]
    intro o ho
    exact hne o ho
  simp [createPrediction, hn, h2, h4, hany, newPrediction]

theorem createPrediction_ok_inv (s : QPState) (sender timestamp : Nat)
    (name : String) (options : List String) (predictionId : Nat) (s' : QPState)
    (hok : createPrediction s sender timestamp name options = .ok (predictionId, s')) :
    name ≠ "" ∧ 2 ≤ options.length ∧ options.length ≤ 4 ∧ (∀ o ∈ options, o ≠ "") ∧
      predictionId = s.predictions.length ∧
      s' = { predictions := s.predictions ++ [newPrediction name options timestamp]
             voted := s.voted
             events := s.events ++
               [.PredictionCreated s.predictions.length sender name options] } := by
  by_cases hn : name = ""
  · simp [createPrediction, hn] at hok
  by_cases h2 : 2 ≤ options.length ∧ options.length ≤ 4
  · by_cases hany : options.any (fun o => o = "") = true
    · simp [createPrediction, hn, h2.1, h2.2, hany] at hok
    · have hrw := createPrediction_ok s sender timestamp name options hn h2.1 h2.2
        (by
          simp only [List.any_eq_true, decide_eq_true_eq] at hany
          intro o ho he
          exact hany ⟨o, ho, he⟩)
      rw [hrw] at hok
      obtain ⟨h5, h6⟩ := Prod.mk.injEq .. ▸ (Except.ok.injEq _ _ ▸ hok)
      refine ⟨hn, h2.1, h2.2, ?_, h5.symm, h6.symm⟩
      simp only [List.any_eq_true, decide_eq_true_eq] at hany
      intro o ho he
      exact hany ⟨o, ho, he⟩
  · simp [createPrediction, hn, h2] at hok

theorem submitChoice_ok (s : QPState) (sender predictionId : Nat) (enc : ExtInput)
    (h : predictionId < s.predictions.length)
    (hopen : (s.predictions[predictionId]).isOpen = true)
    (hnv : (predictionId, sender) ∉ s.voted)
    (hp : enc.proofOk = true) :
    submitChoice s sender predictionId enc =
      .ok ({ predictions :=
               s.predictions.set predictionId
                 { s.predictions[predictionId] with
                     encryptedCounts :=
                       tallyFrom ⟨enc.val % 2 ^ 32, false, false⟩ 0
                         (s.predictions[predictionId]).encryptedCounts }
             voted := (predictionId, sender) :: s.voted
             events := s.events ++
               [.VoteSubmitted predictionId sender ⟨enc.val % 2 ^ 32, false, false⟩] },
           .decodeExternal :: .trivialEncrypt 1 :: .trivialEncrypt 0 ::
             tallyTraceFrom 0 (s.predictions[predictionId]).encryptedCounts.length) := by
  simp [submitChoice, h, hopen, hnv, hp, FHE.fromExternal]

theorem submitChoice_ok_inv (s : QPState) (sender predictionId : Nat) (enc : ExtInput)
    (s' : QPState) (t : List FHEOpShape)
    (hok : submitChoice s sender predictionId enc = .ok (s', t)) :
    ∃ (h : predictionId < s.predictions.length),
      (s.predictions[predictionId]).isOpen = true ∧
      (predictionId, sender) ∉ s.voted ∧ enc.proofOk = true ∧
      s' = { predictions :=
               s.predictions.set predictionId
                 { s.predictions[predictionId] with
                     encryptedCounts :=
                       tallyFrom ⟨enc.val % 2 ^ 32, false, false⟩ 0
                         (s.predictions[predictionId]).encryptedCounts }
             voted := (predictionId, sender) :: s.voted
             events := s.events ++
               [.VoteSubmitted predictionId sender ⟨enc.val % 2 ^ 32, false, false⟩] } ∧
      t = .decodeExternal :: .trivialEncrypt 1 :: .trivialEncrypt 0 ::
            tallyTraceFrom 0 (s.predictions[predictionId]).encryptedCounts.length := by
  by_cases h : predictionId < s.predictions.length
  · by_cases hopen : (s.predictions[predictionId]).isOpen = true
    · by_cases hnv : (predictionId, sender) ∈ s.voted
      · simp [submitChoice, h, hopen, hnv] at hok
      · by_cases hp : enc.proofOk = true
        · have hrw := submitChoice_ok s sender predictionId enc h hopen hnv hp
          rw [hrw] at hok
          obtain ⟨h5, h6⟩ := Prod.mk.injEq .. ▸ (Except.ok.injEq _ _ ▸ hok)
          exact ⟨h, hopen, hnv, hp, h5.symm, h6.symm⟩
        · simp [submitChoice, h, hopen, hnv, hp, FHE.fromExternal] at hok
    · simp [submitChoice, h, hopen] at hok
  · simp [submitChoice, h] at hok

theorem closePrediction_ok (s : QPState) (predictionId : Nat)
    (h : predictionId < s.predictions.length)
    (hopen : (s.predictions[predictionId]).isOpen = true) :
    closePrediction s predictionId =
      .ok { predictions :=
              s.predictions.set predictionId
                { s.predictions[predictionId] with
                    isOpen := false
                    encryptedCounts :=
                      (s.predictions[predictionId]).encryptedCounts.map
                        FHE.makePubliclyDecryptable }
            voted := s.voted
            events := s.events ++ [.PredictionClosed predictionId] } := by
  simp [closePrediction, h, hopen]

theorem closePrediction_ok_inv (s : QPState) (predictionId : Nat) (s' : QPState)
    (hok : closePrediction s predictionId = .ok s') :
    ∃ (h : predictionId < s.predictions.length),
      (s.predictions[predictionId]).isOpen = true ∧
      s' = { predictions :=
               s.predictions.set predictionId
                 { s.predictions[predictionId] with
                     isOpen := false
                     encryptedCounts :=
                       (s.predictions[predictionId]).encryptedCounts.map
                         FHE.makePubliclyDecryptable }
             voted := s.voted
             events := s.events ++ [.PredictionClosed predictionId] } := by
  by_cases h : predictionId < s.predictions.length
  · by_cases hopen : (s.predictions[predictionId]).isOpen = true
    · have hrw := closePrediction_ok s predictionId h hopen
      rw [hrw] at hok
      exact ⟨h, hopen, (Except.ok.injEq _ _ ▸ hok).symm⟩
    · simp [closePrediction, h, hopen] at hok
  · simp [closePrediction, h] at hok

theorem step_closed_mono {s s' : QPState} (hstep : Step s s') (i : Nat)
    (hc : s.predictions[i]?.map Prediction.isOpen = some false) :
    s'.predictions[i]?.map Prediction.isOpen = some false := by
  obtain ⟨p, hp, hpo⟩ : ∃ p, s.predictions[i]? = some p ∧ p.isOpen = false := by
    cases hgi : s.predictions[i]? with
    | none => rw [hgi] at hc; simp at hc
    | some p => rw [hgi] at hc; exact ⟨p, rfl, by simpa using hc⟩
  have hi : i < s.predictions.length := by
    by_contra hni
    rw [List.getElem?_eq_none (by omega)] at hp
    exact Option.noConfusion hp
  cases hstep with
  | create sender timestamp name options predictionId hok =>
    obtain ⟨-, -, -, -, -, hs⟩ := createPrediction_ok_inv _ _ _ _ _ _ _ hok
    subst hs
    simp only [List.getElem?_append, if_pos hi]
    rw [hp]
    simpa using hpo
  | submit sender predictionId enc t hok =>
    obtain ⟨h, hopen, -, -, hs, -⟩ := submitChoice_ok_inv _ _ _ _ _ _ hok
    subst hs
    by_cases hip : predictionId = i
    · subst hip
      rw [List.getElem?_eq_getElem h] at hp
      rw [Option.some.inj hp] at hopen
      rw [hopen] at hpo
      exact Bool.noConfusion hpo
    · simp only [List.getElem?_set, if_neg hip]
      rw [hp]
      simpa using hpo
  | close predictionId hok =>
    obtain ⟨h, hopen, hs⟩ := closePrediction_ok_inv _ _ _ hok
    subst hs
    by_cases hip : predictionId = i
    · subst hip
      simp [List.getElem?_set, h]
    · simp only [List.getElem?_set, if_neg hip]
      rw [hp]
      simpa using hpo

theorem step_voted_mono {s s' : QPState} (hstep : Step s s') (j a : Nat)
    (hv : (j, a) ∈ s.voted) : (j, a) ∈ s'.voted := by
  cases hstep with
  | create sender timestamp name options predictionId hok =>
    obtain ⟨-, -, -, -, -, hs⟩ := createPrediction_ok_inv _ _ _ _ _ _ _ hok
    subst hs
    exact hv
  | submit sender predictionId enc t hok =>
    obtain ⟨h, -, -, -, hs, -⟩ := submitChoice_ok_inv _ _ _ _ _ _ hok
    subst hs
    exact List.mem_cons_of_mem _ hv
  | close predictionId hok =>
    obtain ⟨h, -, hs⟩ := closePrediction_ok_inv _ _ _ hok
    subst hs
    exact hv

/-- A counter handle as initialized by `createPrediction`: decrypts to 0,
not publicly decryptable, operate-rights held by the contract. -/
def zeroCounter : Ct := ⟨0, false, true⟩

/-- The prediction produced by `create("BTC price", ["Up","Down"])` at
timestamp 100. -/
def exPrediction : Prediction :=
  ⟨"BTC price", ["Up", "Down"], [zeroCounter, zeroCounter], true, 100⟩

/-- State after `createPrediction` of `exPrediction` by address 7 on a
fresh deployment. -/
def exState1 : QPState :=
  ⟨[exPrediction], [], [.PredictionCreated 0 7 "BTC price" ["Up", "Down"]]⟩

/-- `exPrediction` after a vote decoding to index 0. -/
def exVotedPrediction : Prediction :=
  ⟨"BTC price", ["Up", "Down"], [⟨1, false, true⟩, ⟨0, false, true⟩], true, 100⟩

/-- State after address 1 votes choice 0 on prediction 0 of `exState1`. -/
def exAfterVote1 : QPState :=
  ⟨[exVotedPrediction], [(0, 1)],
    [.PredictionCreated 0 7 "BTC price" ["Up", "Down"],
     .VoteSubmitted 0 1 ⟨0, false, false⟩]⟩

/-- The homomorphic-operation trace of one `submitChoice` on a 2-option
prediction. -/
def exTrace2 : List FHEOpShape :=
  [.decodeExternal, .trivialEncrypt 1, .trivialEncrypt 0,
   .eqScalar 0, .select, .addCount 0, .allowCount 0,
   .eqScalar 1, .select, .addCount 1, .allowCount 1]

/-- A second prediction used to exercise frame conditions. -/
def exPredictionB : Prediction :=
  ⟨"ETH flip", ["Yes", "No", "Maybe"], [zeroCounter, zeroCounter, zeroCounter], true, 200⟩

/-- A two-prediction state. -/
def exState2 : QPState := ⟨[exPrediction, exPredictionB], [], []⟩

/-- `exState2` after `closePrediction 0`. -/
def exClosed2 : QPState :=
  ⟨[⟨"BTC price", ["Up", "Down"], [⟨0, true, true⟩, ⟨0, true, true⟩], false, 100⟩,
    exPredictionB],
   [], [.PredictionClosed 0]⟩

theorem lt_of_getElem?_some {α : Type} {l : List α} {n : Nat} {a : α}
    (h : l[n]? = some a) : n < l.length := by
  by_contra hn
  rw [List.getElem?_eq_none (by omega)] at h
  exact Option.noConfusion h

theorem mem_of_getElem?_some {α : Type} {l : List α} {n : Nat} {a : α}
    (h : l[n]? = some a) : a ∈ l := by
  have hn : n < l.length := lt_of_getElem?_some h
  rw [List.getElem?_eq_getElem hn] at h
  exact Option.some.inj h ▸ List.getElem_mem hn

/-- C6: `createPrediction` rejects an empty name, an option count outside
[2,4], and any empty option label, each with `InvalidInput`; on valid
input it returns the prior prediction count as the new id and appends a
record storing the name and options, `isOpen = true`, the timestamp, and
one counter per option decrypting to 0 with operate-rights granted to the
contract (`allowedThis`). -/
theorem createPrediction_validates_and_initializes (s : QPState) (sender timestamp : Nat)
    (name : String) (options : List String) :
    (name = "" → createPrediction s sender timestamp name options = .error .InvalidInput) ∧
    (¬ (2 ≤ options.length ∧ options.length ≤ 4) →
      createPrediction s sender timestamp name options = .error .InvalidInput) ∧
    ((∃ o ∈ options, o = "") →
      createPrediction s sender timestamp name options = .error .InvalidInput) ∧
    (name ≠ "" → 2 ≤ options.length → options.length ≤ 4 → (∀ o ∈ options, o ≠ "") →
      createPrediction s sender timestamp name options =
        .ok (s.predictions.length,
          { predictions := s.predictions ++
              [{ name := name
                 options := options
                 encryptedCounts := options.map (fun _ => ⟨0, false, true⟩)
                 isOpen := true
                 createdAt := timestamp }]
            voted := s.voted
            events := s.events ++
              [.PredictionCreated s.predictions.length sender name options] })) := by
  refine ⟨?_, ?_, ?_, ?_⟩
  · intro hn
    simp [createPrediction, hn]
  · intro hlen
    by_cases hn : name = "" <;> simp [createPrediction, hn, hlen]
  · rintro ⟨o, ho, he⟩
    have hany : options.any (fun o => o = "") = true := by
      simp only [List.any_eq_true, decide_eq_true_eq]
      exact ⟨o, ho, he⟩
    by_cases hn : name = ""
    · simp [createPrediction, hn]
    · by_cases hlen : 2 ≤ options.length ∧ options.length ≤ 4
      · simp [createPrediction, hn, hlen, hany]
      · simp [createPrediction, hn, hlen]
  · intro hn h2 h4 hne
    rw [createPrediction_ok s sender timestamp name options hn h2 h4 hne]
    simp [newPrediction, FHE.allowThis, FHE.asEuint32]

theorem createPrediction_validates_witness :
    createPrediction initState 7 100 "BTC price" ["Up", "Down"] = .ok (0, exState1) :=
  (createPrediction_validates_and_initializes initState 7 100 "BTC price"
        ["Up", "Down"]).2.2.2
    (by decide) (by decide) (by decide) (by decide)

/-- C4: in every reachable state every stored prediction satisfies the
data-model invariant: as many counters as options, 2–4 options, all
option labels non-empty.  Mutating operations preserve it by the
induction over `Reachable`; queries return no state and cannot break
it. -/
theorem reachable_wellFormed (s : QPState) (h : Reachable s) :
    ∀ p ∈ s.predictions, wellFormedPrediction p := by
  induction h with
  | init => intro p hp; simp [initState] at hp
  | step hr hstep ih =>
    intro p hp
    cases hstep with
    | create sender timestamp name options predictionId hok =>
      obtain ⟨hn, h2, h4, hne, -, hs⟩ := createPrediction_ok_inv _ _ _ _ _ _ _ hok
      subst hs
      simp only [List.mem_append, List.mem_singleton] at hp
      rcases hp with hp | hp
      · exact ih p hp
      · subst hp
        exact ⟨by simp [newPrediction], h2, h4, hne⟩
    | submit sender predictionId enc t hok =>
      obtain ⟨hlt, hopen, -, -, hs, -⟩ := submitChoice_ok_inv _ _ _ _ _ _ hok
      subst hs
      rcases List.mem_or_eq_of_mem_set hp with hp | hp
      · exact ih p hp
      · subst hp
        obtain ⟨ha, hb, hc, hd⟩ := ih _ (List.getElem_mem hlt)
        exact ⟨by simpa [length_tallyFrom] using ha, hb, hc, hd⟩
    | close predictionId hok =>
      obtain ⟨hlt, hopen, hs⟩ := closePrediction_ok_inv _ _ _ hok
      subst hs
      rcases List.mem_or_eq_of_mem_set hp with hp | hp
      · exact ih p hp
      · subst hp
        obtain ⟨ha, hb, hc, hd⟩ := ih _ (List.getElem_mem hlt)
        exact ⟨by simpa using ha, hb, hc, hd⟩

theorem reachable_wellFormed_witness : wellFormedPrediction exPrediction :=
  reachable_wellFormed exState1
    (Reachable.step Reachable.init
      (Step.create 7 100 "BTC price" ["Up", "Down"] 0 (by decide)))
    exPrediction (by decide)

/-- C2: `submitChoice` checks its preconditions in source order, each
failing with exactly one condition: unknown id → `InvalidPrediction`;
closed ballot → `BallotClosed` (whatever the ledger or proof);
already-voted caller → `AlreadyVoted` (before the proof is even looked
at); only then a bad proof → `InvalidProof`.  An error result is a fully
reverted transaction, so no state is produced on failure.  Double vote by
one identity: the first call succeeds, the second fails `AlreadyVoted`,
and the tally decrypts to only the first vote. -/
theorem submitChoice_precondition_order (s : QPState) (sender predictionId : Nat)
    (enc : ExtInput) :
    (s.predictions.length ≤ predictionId →
      submitChoice s sender predictionId enc = .error .InvalidPrediction) ∧
    (∀ (h : predictionId < s.predictions.length),
      (s.predictions[predictionId]).isOpen = false →
      submitChoice s sender predictionId enc = .error .BallotClosed) ∧
    (∀ (h : predictionId < s.predictions.length),
      (s.predictions[predictionId]).isOpen = true →
      (predictionId, sender) ∈ s.voted →
      submitChoice s sender predictionId enc = .error .AlreadyVoted) ∧
    (∀ (h : predictionId < s.predictions.length),
      (s.predictions[predictionId]).isOpen = true →
      (predictionId, sender) ∉ s.voted →
      enc.proofOk = false →
      submitChoice s sender predictionId enc = .error .InvalidProof) ∧
    submitChoice exState1 1 0 ⟨0, true⟩ = .ok (exAfterVote1, exTrace2) ∧
    submitChoice exAfterVote1 1 0 ⟨1, true⟩ = .error .AlreadyVoted ∧
    exAfterVote1.predictions.map (fun p => p.encryptedCounts.map Ct.val) = [[1, 0]] := by
  refine ⟨?_, ?_, ?_, ?_, by decide, by decide, by decide⟩
  · intro hge
    simp [submitChoice, Nat.not_lt.mpr hge]
  · intro h hcl
    simp [submitChoice, h, hcl]
  · intro h hopen hv
    simp [submitChoice, h, hopen, hv]
  · intro h hopen hnv hp
    simp [submitChoice, h, hopen, hnv, hp, FHE.fromExternal]

theorem submitChoice_precondition_order_witness :
    submitChoice exState1 9 5 ⟨0, true⟩ = .error .InvalidPrediction :=
  (submitChoice_precondition_order exState1 9 5 ⟨0, true⟩).1 (by decide)

/-- C3: `closePrediction` fails `InvalidPrediction` for an id beyond the
prediction count and `AlreadyClosed` when `isOpen` is already false;
otherwise it sets `isOpen = false` and replaces every counter with its
`makePubliclyDecryptable` version (so every counter of the closed
prediction carries the public-decryptable flag).  The transition is
one-way: no successful operation of the contract turns a closed
prediction's `isOpen` back to true. -/
theorem closePrediction_spec (s : QPState) (predictionId : Nat) :
    (s.predictions.length ≤ predictionId →
      closePrediction s predictionId = .error .InvalidPrediction) ∧
    (∀ (h : predictionId < s.predictions.length),
      (s.predictions[predictionId]).isOpen = false →
      closePrediction s predictionId = .error .AlreadyClosed) ∧
    (∀ (h : predictionId < s.predictions.length),
      (s.predictions[predictionId]).isOpen = true →
      closePrediction s predictionId =
        .ok { predictions :=
                s.predictions.set predictionId
                  { s.predictions[predictionId] with
                      isOpen := false
                      encryptedCounts :=
                        (s.predictions[predictionId]).encryptedCounts.map
                          FHE.makePubliclyDecryptable }
              voted := s.voted
              events := s.events ++ [.PredictionClosed predictionId] }) ∧
    (∀ (h : predictionId < s.predictions.length),
      (s.predictions[predictionId]).isOpen = true →
      (closePrediction s predictionId).toOption.map
          (fun s' => s'.predictions[predictionId]?.map
            (fun p => (p.isOpen, p.encryptedCounts.all Ct.publicDec)))
        = some (some (false, true))) ∧
    (∀ s' : QPState, Step s s' → ∀ i : Nat,
      s.predictions[i]?.map Prediction.isOpen = some false →
      s'.predictions[i]?.map Prediction.isOpen = some false) := by
  refine ⟨?_, ?_, ?_, ?_, ?_⟩
  · intro hge
    simp [closePrediction, Nat.not_lt.mpr hge]
  · intro h hcl
    simp [closePrediction, h, hcl]
  · intro h hopen
    exact closePrediction_ok s predictionId h hopen
  · intro h hopen
    rw [closePrediction_ok s predictionId h hopen]
    simp only [Except.toOption, Option.map_some']
    rw [List.getElem?_set]
    simp [h, List.all_eq_true, FHE.makePubliclyDecryptable]
  · intro s' hstep i
    exact step_closed_mono hstep i

theorem closePrediction_spec_witness :
    closePrediction exState2 0 = .ok exClosed2 := by
  exact (closePrediction_spec exState2 0).2.2.1 (by decide) (by decide)

/-- C7: every id-taking operation — the three queries and both mutating
operations — fails `InvalidPrediction` on an id at or beyond the
prediction count; `getPredictionCount` takes no id and always returns the
count.  All queries are `view`s: each returns the storage state
unchanged. -/
theorem querySurface_spec (s : QPState) (predictionId user sender : Nat)
    (enc : ExtInput) :
    (s.predictions.length ≤ predictionId →
      getPrediction s predictionId = .error .InvalidPrediction ∧
      getEncryptedCounts s predictionId = .error .InvalidPrediction ∧
      hasAddressVoted s predictionId user = .error .InvalidPrediction ∧
      submitChoice s sender predictionId enc = .error .InvalidPrediction ∧
      closePrediction s predictionId = .error .InvalidPrediction) ∧
    (∀ (h : predictionId < s.predictions.length),
      getPrediction s predictionId =
        .ok (((s.predictions[predictionId]).name, (s.predictions[predictionId]).options,
              (s.predictions[predictionId]).encryptedCounts,
              (s.predictions[predictionId]).isOpen,
              (s.predictions[predictionId]).createdAt), s) ∧
      getEncryptedCounts s predictionId =
        .ok ((s.predictions[predictionId]).encryptedCounts, s) ∧
      hasAddressVoted s predictionId user =
        .ok (decide ((predictionId, user) ∈ s.voted), s)) ∧
    getPredictionCount s = (s.predictions.length, s) := by
  refine ⟨?_, ?_, rfl⟩
  · intro hge
    have hnlt := Nat.not_lt.mpr hge
    exact ⟨by simp [getPrediction, hnlt], by simp [getEncryptedCounts, hnlt],
      by simp [hasAddressVoted, hnlt], by simp [submitChoice, hnlt],
      by simp [closePrediction, hnlt]⟩
  · intro h
    exact ⟨by simp [getPrediction, h], by simp [getEncryptedCounts, h],
      by simp [hasAddressVoted, h]⟩

theorem querySurface_spec_witness :
    getPrediction exState1 99 = .error .InvalidPrediction ∧
    getPrediction exState1 0 =
      .ok (("BTC price", ["Up", "Down"], [zeroCounter, zeroCounter], true, 100), exState1) :=
  ⟨((querySurface_spec exState1 99 3 4 ⟨0, true⟩).1 (by decide)).1,
   ((querySurface_spec exState1 0 3 4 ⟨0, true⟩).2.1 (by decide)).1⟩

/-- C8: the vote record of a `(prediction, identity)` pair is absent on a
fresh deployment, is created exactly by a successful `submitChoice` of
that identity on that prediction, is untouched by votes of other
identities or on other predictions and by `createPrediction` and
`closePrediction`, and once present survives every further operation;
`hasAddressVoted` reports exactly this record for a known id. -/
theorem hasVoted_lifecycle :
    (∀ predictionId a : Nat, (predictionId, a) ∉ initState.voted) ∧
    (∀ (s : QPState) (sender predictionId : Nat) (enc : ExtInput) (s' : QPState)
        (t : List FHEOpShape),
      submitChoice s sender predictionId enc = .ok (s', t) →
        (predictionId, sender) ∈ s'.voted ∧
        ∀ j a : Nat, (j, a) ≠ (predictionId, sender) →
          ((j, a) ∈ s'.voted ↔ (j, a) ∈ s.voted)) ∧
    (∀ (s : QPState) (sender timestamp : Nat) (name : String) (options : List String)
        (predictionId : Nat) (s' : QPState),
      createPrediction s sender timestamp name options = .ok (predictionId, s') →
        s'.voted = s.voted) ∧
    (∀ (s : QPState) (predictionId : Nat) (s' : QPState),
      closePrediction s predictionId = .ok s' → s'.voted = s.voted) ∧
    (∀ s s' : QPState, Step s s' → ∀ j a : Nat, (j, a) ∈ s.voted → (j, a) ∈ s'.voted) ∧
    (∀ (s : QPState) (predictionId user : Nat),
      predictionId < s.predictions.length →
      hasAddressVoted s predictionId user =
        .ok (decide ((predictionId, user) ∈ s.voted), s)) := by
  refine ⟨?_, ?_, ?_, ?_, ?_, ?_⟩
  · intro predictionId a hmem
    simp [initState] at hmem
  · intro s sender predictionId enc s' t hok
    obtain ⟨h, -, -, -, hs, -⟩ := submitChoice_ok_inv _ _ _ _ _ _ hok
    subst hs
    refine ⟨List.mem_cons_self _ _, ?_⟩
    intro j a hne
    simp only [List.mem_cons]
    constructor
    · rintro (he | hm)
      · exact absurd he hne
      · exact hm
    · exact fun hm => Or.inr hm
  · intro s sender timestamp name options predictionId s' hok
    obtain ⟨-, -, -, -, -, hs⟩ := createPrediction_ok_inv _ _ _ _ _ _ _ hok
    subst hs
    rfl
  · intro s predictionId s' hok
    obtain ⟨h, -, hs⟩ := closePrediction_ok_inv _ _ _ hok
    subst hs
    rfl
  · intro s s' hstep j a
    exact step_voted_mono hstep j a
  · intro s predictionId user h
    simp [hasAddressVoted, h]

theorem hasVoted_lifecycle_witness :
    (0, 1) ∈ exAfterVote1.voted ∧
    ((0, 2) ∈ exAfterVote1.voted ↔ (0, 2) ∈ exState1.voted) :=
  ⟨(hasVoted_lifecycle.2.1 exState1 1 0 ⟨0, true⟩ exAfterVote1 exTrace2 (by decide)).1,
   (hasVoted_lifecycle.2.1 exState1 1 0 ⟨0, true⟩ exAfterVote1 exTrace2 (by decide)).2
     0 2 (by decide)⟩

/-- C9: operations are local to the prediction they target —
`closePrediction X` leaves the ledger untouched and every other
prediction's stored record identical; `submitChoice` on X leaves every
other prediction's record identical and the ledger entries of every other
prediction unchanged. -/
theorem operation_frame (s : QPState) (sender predictionId : Nat) (enc : ExtInput) :
    (∀ s' : QPState, closePrediction s predictionId = .ok s' →
      s'.voted = s.voted ∧
      ∀ j : Nat, j ≠ predictionId → s'.predictions[j]? = s.predictions[j]?) ∧
    (∀ (s' : QPState) (t : List FHEOpShape),
      submitChoice s sender predictionId enc = .ok (s', t) →
      (∀ j : Nat, j ≠ predictionId → s'.predictions[j]? = s.predictions[j]?) ∧
      (∀ j a : Nat, j ≠ predictionId → ((j, a) ∈ s'.voted ↔ (j, a) ∈ s.voted))) := by
  constructor
  · intro s' hok
    obtain ⟨h, -, hs⟩ := closePrediction_ok_inv _ _ _ hok
    subst hs
    refine ⟨rfl, ?_⟩
    intro j hj
    rw [List.getElem?_set, if_neg (Ne.symm hj)]
  · intro s' t hok
    obtain ⟨h, -, -, -, hs, -⟩ := submitChoice_ok_inv _ _ _ _ _ _ hok
    subst hs
    constructor
    · intro j hj
      rw [List.getElem?_set, if_neg (Ne.symm hj)]
    · intro j a hj
      simp only [List.mem_cons, Prod.mk.injEq]
      constructor
      · rintro (⟨he, -⟩ | hm)
        · exact absurd he hj
        · exact hm
      · exact fun hm => Or.inr hm

theorem operation_frame_witness :
    exClosed2.predictions[1]? = exState2.predictions[1]? :=
  ((operation_frame exState2 3 0 ⟨0, true⟩).1 exClosed2 (by decide)).2 1 (by decide)

/-- An open prediction whose first counter decrypts to the `euint32`
maximum `2^32 - 1`: the next matching vote wraps it to 0. -/
def cexPrediction : Prediction :=
  ⟨"X", ["A", "B"], [⟨4294967295, false, true⟩, ⟨5, false, true⟩], true, 0⟩

/-- A state holding only `cexPrediction`. -/
def cexState : QPState := ⟨[cexPrediction], [], []⟩

/-- C1 counterexample: with the pre-vote counters decrypting to
`[2^32 - 1, 5]`, a successful vote for index 0 leaves them decrypting to
`[0, 5]` — `FHE.add` on `euint32` wraps, so the matching counter is not
increased by exactly 1 at the 32-bit maximum. -/
theorem submitChoice_wraps_at_uint32_max :
    cexState.predictions.map (fun p => p.encryptedCounts.map Ct.val) = [[4294967295, 5]] ∧
    (submitChoice cexState 1 0 ⟨0, true⟩).toOption.map
        (fun r => r.1.predictions.map (fun p => p.encryptedCounts.map Ct.val))
      = some [[0, 5]] := by
  exact ⟨by decide, by decide⟩

/-- C1 (amended): a single successful `submitChoice` decoding to an
in-range index `k` updates the decrypted counters one-hot modulo `2^32`:
slot `k` becomes `(old + 1) % 2^32` — an increase by exactly 1 whenever
the pre-vote count is below `2^32 - 1` — and every slot `j ≠ k` keeps its
decrypted value. -/
theorem submitChoice_oneHot_increment (s : QPState) (sender predictionId k : Nat)
    (enc : ExtInput)
    (h : predictionId < s.predictions.length)
    (hopen : (s.predictions[predictionId]).isOpen = true)
    (hnv : (predictionId, sender) ∉ s.voted)
    (hp : enc.proofOk = true)
    (hk : enc.val % 2 ^ 32 = k)
    (hkn : k < (s.predictions[predictionId]).encryptedCounts.length)
    (hn : (s.predictions[predictionId]).encryptedCounts.length ≤ 4)
    (hwf : ∀ c ∈ (s.predictions[predictionId]).encryptedCounts, c.val < 2 ^ 32) :
    (∀ j : Nat,
      (submitChoice s sender predictionId enc).toOption.map
          (fun r => r.1.predictions[predictionId]?.bind
            (fun p => p.encryptedCounts[j]?.map Ct.val))
        = some ((s.predictions[predictionId]).encryptedCounts[j]?.map
            (fun c => if j = k then (c.val + 1) % 2 ^ 32 else c.val))) ∧
    (∀ c : Ct, (s.predictions[predictionId]).encryptedCounts[k]? = some c →
      c.val + 1 < 2 ^ 32 →
      (submitChoice s sender predictionId enc).toOption.map
          (fun r => r.1.predictions[predictionId]?.bind
            (fun p => p.encryptedCounts[k]?.map Ct.val))
        = some (some (c.val + 1))) := by
  have hmain : ∀ j : Nat,
      (submitChoice s sender predictionId enc).toOption.map
          (fun r => r.1.predictions[predictionId]?.bind
            (fun p => p.encryptedCounts[j]?.map Ct.val))
        = some ((s.predictions[predictionId]).encryptedCounts[j]?.map
            (fun c => if j = k then (c.val + 1) % 2 ^ 32 else c.val)) := by
    intro j
    rw [submitChoice_ok s sender predictionId enc h hopen hnv hp]
    simp only [Except.toOption, Option.map_some']
    rw [List.getElem?_set, if_pos rfl, if_pos h]
    simp only [Option.some_bind]
    rw [val_tallyFrom]
    cases hcj : (s.predictions[predictionId]).encryptedCounts[j]? with
    | none => rfl
    | some c =>
      have hj : j < (s.predictions[predictionId]).encryptedCounts.length :=
        lt_of_getElem?_some hcj
      have hj32 : j % 2 ^ 32 = j := Nat.mod_eq_of_lt (by omega)
      have hcv : c.val < 2 ^ 32 := hwf c (mem_of_getElem?_some hcj)
      simp only [Option.map_some', Option.some.injEq, hj32, hk]
      by_cases hjk : j = k
      · subst hjk
        simp
      · rw [if_neg (fun he => hjk he.symm), if_neg hjk]
        omega
  refine ⟨hmain, ?_⟩
  intro c hck hlt
  rw [hmain k, hck]
  simp
  omega

theorem submitChoice_oneHot_increment_witness :
    (submitChoice exState1 1 0 ⟨1, true⟩).toOption.map
        (fun r => r.1.predictions[0]?.bind
          (fun p => p.encryptedCounts[0]?.map Ct.val))
      = some (some 0) ∧
    (submitChoice exState1 1 0 ⟨1, true⟩).toOption.map
        (fun r => r.1.predictions[0]?.bind
          (fun p => p.encryptedCounts[1]?.map Ct.val))
      = some (some 1) :=
  ⟨(submitChoice_oneHot_increment exState1 1 0 1 ⟨1, true⟩ (by decide) (by decide)
      (by decide) (by decide) (by decide) (by decide) (by decide) (by decide)).1 0,
   (submitChoice_oneHot_increment exState1 1 0 1 ⟨1, true⟩ (by decide) (by decide)
      (by decide) (by decide) (by decide) (by decide) (by decide) (by decide)).1 1⟩

/-- C10: a `submitChoice` on an open prediction whose choice decodes to
an index at or beyond the option count still succeeds: the caller is
recorded in the vote ledger, a `VoteSubmitted` event is appended, and no
counter's decrypted value changes, since `FHE.eq(choice, i)` is false on
every slot.  Consequently the decrypted tally counts only in-range
votes: after an in-range and an out-of-range vote on a fresh 2-option
ballot the counter sum is 1 while the ledger holds 2 voters. -/
theorem submitChoice_outOfRange_succeeds (s : QPState) (sender predictionId : Nat)
    (enc : ExtInput)
    (h : predictionId < s.predictions.length)
    (hopen : (s.predictions[predictionId]).isOpen = true)
    (hnv : (predictionId, sender) ∉ s.voted)
    (hp : enc.proofOk = true)
    (hout : (s.predictions[predictionId]).encryptedCounts.length ≤ enc.val % 2 ^ 32)
    (hn : (s.predictions[predictionId]).encryptedCounts.length ≤ 4)
    (hwf : ∀ c ∈ (s.predictions[predictionId]).encryptedCounts, c.val < 2 ^ 32) :
    ((submitChoice s sender predictionId enc).toOption.map
        (fun r => (r.1.predictions[predictionId]?.map
            (fun p => p.encryptedCounts.map Ct.val),
          decide ((predictionId, sender) ∈ r.1.voted), r.1.events)))
      = some (some ((s.predictions[predictionId]).encryptedCounts.map Ct.val), true,
          s.events ++
            [.VoteSubmitted predictionId sender ⟨enc.val % 2 ^ 32, false, false⟩]) ∧
    (submitChoice exAfterVote1 2 0 ⟨7, true⟩).toOption.map
        (fun r => (r.1.predictions.map (fun p => (p.encryptedCounts.map Ct.val).sum),
          r.1.voted.length))
      = some ([1], 2) := by
  refine ⟨?_, by decide⟩
  rw [submitChoice_ok s sender predictionId enc h hopen hnv hp]
  simp only [Except.toOption, Option.map_some']
  rw [List.getElem?_set, if_pos rfl, if_pos h]
  simp only [Option.some.injEq, Prod.mk.injEq]
  refine ⟨?_, ?_, trivial⟩
  · refine congrArg some ?_
    show (tallyFrom ⟨enc.val % 2 ^ 32, false, false⟩ 0
        (s.predictions[predictionId]).encryptedCounts).map Ct.val = _
    apply List.ext_getElem?
    intro n
    rw [List.getElem?_map, List.getElem?_map, val_tallyFrom]
    cases hcn : (s.predictions[predictionId]).encryptedCounts[n]? with
    | none => rfl
    | some c =>
      have hnlt : n < (s.predictions[predictionId]).encryptedCounts.length :=
        lt_of_getElem?_some hcn
      have hn32 : n % 2 ^ 32 = n := Nat.mod_eq_of_lt (by omega)
      have hcv : c.val < 2 ^ 32 := hwf c (mem_of_getElem?_some hcn)
      have hne : ¬ enc.val % 2 ^ 32 = n % 2 ^ 32 := by
        rw [hn32]; omega
      simp only [Option.map_some', Option.some.injEq, if_neg hne]
      omega
  · simp

theorem submitChoice_outOfRange_witness :
    (submitChoice exAfterVote1 2 0 ⟨7, true⟩).toOption.map
        (fun r => (r.1.predictions[0]?.map
            (fun p => p.encryptedCounts.map Ct.val),
          decide ((0, 2) ∈ r.1.voted), r.1.events))
      = some (some [1, 0], true,
          [.PredictionCreated 0 7 "BTC price" ["Up", "Down"],
           .VoteSubmitted 0 1 ⟨0, false, false⟩,
           .VoteSubmitted 0 2 ⟨7, false, false⟩]) :=
  (submitChoice_outOfRange_succeeds exAfterVote1 2 0 ⟨7, true⟩ (by decide) (by decide)
      (by decide) (by decide) (by decide) (by decide) (by decide)).1

/-- `exState1` after address 1 votes choice 1 instead of choice 0. -/
def exAfterVote1b : QPState :=
  ⟨[⟨"BTC price", ["Up", "Down"], [⟨0, false, true⟩, ⟨1, false, true⟩], true, 100⟩],
   [(0, 1)],
   [.PredictionCreated 0 7 "BTC price" ["Up", "Down"],
    .VoteSubmitted 0 1 ⟨1, false, false⟩]⟩

/-- C5: the homomorphic-operation trace of a successful `submitChoice`
does not depend on the decoded choice: two successful submissions on the
same state produce identical traces, and the trace is the canonical
constant shape — one decode, two trivial encryptions, then per slot
exactly one `eq`, one `select`, one `add` and one re-grant, with the set
of updated counter slots being all slots `0..n-1`. -/
theorem submitChoice_trace_oblivious (s : QPState) (sender predictionId : Nat)
    (enc₁ enc₂ : ExtInput) (s₁ s₂ : QPState) (t₁ t₂ : List FHEOpShape)
    (h₁ : submitChoice s sender predictionId enc₁ = .ok (s₁, t₁))
    (h₂ : submitChoice s sender predictionId enc₂ = .ok (s₂, t₂)) :
    t₁ = t₂ ∧
    ∀ (h : predictionId < s.predictions.length),
      t₁ = .decodeExternal :: .trivialEncrypt 1 :: .trivialEncrypt 0 ::
        tallyTraceFrom 0 (s.predictions[predictionId]).encryptedCounts.length ∧
      t₁.filterMap addedSlot =
        List.range (s.predictions[predictionId]).encryptedCounts.length ∧
      t₁.countP isEqShape = (s.predictions[predictionId]).encryptedCounts.length ∧
      t₁.countP isSelectShape = (s.predictions[predictionId]).encryptedCounts.length ∧
      t₁.countP isAddShape = (s.predictions[predictionId]).encryptedCounts.length ∧
      t₁.countP isAllowShape = (s.predictions[predictionId]).encryptedCounts.length := by
  obtain ⟨hl1, -, -, -, -, ht1⟩ := submitChoice_ok_inv _ _ _ _ _ _ h₁
  obtain ⟨hl2, -, -, -, -, ht2⟩ := submitChoice_ok_inv _ _ _ _ _ _ h₂
  subst ht1
  refine ⟨by rw [ht2], ?_⟩
  intro h
  refine ⟨rfl, ?_, ?_, ?_, ?_, ?_⟩
  · simp [List.filterMap_cons, addedSlot, addedSlots_tallyTraceFrom, List.range_eq_range']
  · simp [List.countP_cons, isEqShape, countP_eq_tallyTraceFrom]
  · simp [List.countP_cons, isSelectShape, countP_select_tallyTraceFrom]
  · simp [List.countP_cons, isAddShape, countP_add_tallyTraceFrom]
  · simp [List.countP_cons, isAllowShape, countP_allow_tallyTraceFrom]

theorem submitChoice_trace_oblivious_witness :
    exTrace2.filterMap addedSlot = List.range 2 :=
  ((submitChoice_trace_oblivious exState1 1 0 ⟨0, true⟩ ⟨1, true⟩ exAfterVote1
        exAfterVote1b exTrace2 exTrace2 (by decide) (by decide)).2 (by decide)).2.1

end QuantumPredictor
